import Mathlib

/-!
Verification of the GrowableSequence component described by the
repository's specification.  The repository's Go files demonstrate the
built-in slice operations (append, slicing, make, indexing) but contain
no implementation of them, so — following the specification's design
note ("use an explicit handle/reference-count or arena+index strategy") —
the component is modelled here as handles (views) into backing stores
held in an arena, which makes the aliasing structure explicit and
provable.
-/

namespace GrowSeq

/-- Modelled from the spec: a growable sequence / view is a handle holding
a backing-store index into the arena, a start offset, a length and a
capacity (the repository never implements this type; only Go's built-in
slices are exercised). -/
structure Seq where
  store : Nat
  off : Nat
  len : Nat
  cap : Nat
deriving Repr, DecidableEq

/-- Modelled from the spec: the arena of backing stores; each store is a
contiguous region whose list length is its allocated size. -/
structure Arena where
  stores : List (List Int)
deriving Repr, DecidableEq

/-- Modelled from the spec: the error taxonomy — RangeError for invalid
slice bounds, IndexOutOfRange for invalid get/set indices. -/
inductive Err where
  | RangeError
  | IndexOutOfRange
deriving Repr, DecidableEq

instance {ε α : Type} [DecidableEq ε] [DecidableEq α] : DecidableEq (Except ε α) :=
  fun x y =>
    match x, y with
    | .ok u, .ok v =>
      if h : u = v then isTrue (congrArg Except.ok h)
      else isFalse (fun hc => h (by injection hc))
    | .ok _, .error _ => isFalse (fun hc => Except.noConfusion hc)
    | .error _, .ok _ => isFalse (fun hc => Except.noConfusion hc)
    | .error u, .error v =>
      if h : u = v then isTrue (congrArg Except.error h)
      else isFalse (fun hc => h (by injection hc))

/-- The backing store a handle refers to. -/
def storeOf (a : Arena) (s : Seq) : List Int :=
  a.stores.getD s.store []

/-- Allocate a fresh backing store in the arena, returning its index. -/
def alloc (a : Arena) (st : List Int) : Arena × Nat :=
  (⟨a.stores ++ [st]⟩, a.stores.length)

/-- The observable elements of a sequence: `len` elements of its backing
store starting at its offset. -/
def elems (a : Arena) (s : Seq) : List Int :=
  ((storeOf a s).drop s.off).take s.len

/-- Well-formedness: the handle points at an existing store, `len ≤ cap`,
and the view fits inside the allocated region of its store. -/
def WF (a : Arena) (s : Seq) : Prop :=
  s.store < a.stores.length ∧ s.len ≤ s.cap ∧ s.off + s.cap ≤ (storeOf a s).length

instance (a : Arena) (s : Seq) : Decidable (WF a s) := by
  unfold WF
  exact inferInstance

/-- Modelled from the spec: construct-empty — `length = capacity = 0`. -/
def constructEmpty (a : Arena) : Arena × Seq :=
  ((alloc a []).1, ⟨(alloc a []).2, 0, 0, 0⟩)

/-- Modelled from the spec: construct-from-elements — backing store sized
exactly to the element count. -/
def fromElems (a : Arena) (es : List Int) : Arena × Seq :=
  ((alloc a es).1, ⟨(alloc a es).2, 0, es.length, es.length⟩)

/-- Modelled from the spec: the make-equivalent with length and capacity;
the backing store is zero-initialized. -/
def makeSeq (a : Arena) (n c : Nat) : Arena × Seq :=
  ((alloc a (List.replicate c 0)).1, ⟨(alloc a (List.replicate c 0)).2, 0, n, c⟩)

/-- Modelled from the spec: the make-equivalent with length only
(capacity = length). -/
def makeLen (a : Arena) (n : Nat) : Arena × Seq :=
  makeSeq a n n

/-- Modelled from the spec: get fails with IndexOutOfRange when
`index < 0` or `index ≥ length`; otherwise it reads the backing store at
the view's offset plus the index. -/
def get (a : Arena) (s : Seq) (i : Int) : Except Err Int :=
  if i < 0 ∨ (s.len : Int) ≤ i then .error .IndexOutOfRange
  else .ok ((storeOf a s).getD (s.off + i.toNat) 0)

/-- Modelled from the spec: set checks the bounds before any write and on
failure reports IndexOutOfRange leaving the arena unchanged; on success
it writes through to the shared backing store. -/
def set (a : Arena) (s : Seq) (i : Int) (v : Int) : Arena × Option Err :=
  if i < 0 ∨ (s.len : Int) ≤ i then (a, some .IndexOutOfRange)
  else (⟨a.stores.set s.store ((storeOf a s).set (s.off + i.toNat) v)⟩, none)

/-- Modelled from the spec: slice returns a view with
`length = end - start` and `capacity = old capacity - start`, sharing the
backing store; fails with RangeError when `start < 0`, `end < start` or
`end > old length`. -/
def slice (a : Arena) (s : Seq) (start stop : Int) : Except Err Seq :=
  if start < 0 ∨ stop < start ∨ (s.len : Int) < stop then .error .RangeError
  else .ok ⟨s.store, s.off + start.toNat, (stop - start).toNat, s.cap - start.toNat⟩

/-- Modelled from the spec: the two-regime growth policy when
reallocating — double (from 1 on the first growth from 0) while the
required capacity is at most 1024, grow by a factor 1.25 (rounded up)
above that, never below the required capacity. -/
def growCap (old required : Nat) : Nat :=
  if required ≤ 1024 then
    max required (if old = 0 then 1 else 2 * old)
  else
    max required ((5 * old + 3) / 4)

/-- The backing store of `s` with the elements `es` written in place
starting at offset `length` (the within-capacity case of append). -/
def spliceStore (a : Arena) (s : Seq) (es : List Int) : List Int :=
  (storeOf a s).take (s.off + s.len) ++ es ++ (storeOf a s).drop (s.off + s.len + es.length)

/-- Modelled from the spec: append returns a new handle; appending zero
elements returns the input unchanged; within capacity the elements are
written into the existing store starting at offset `length`; otherwise a
fresh store of capacity `growCap` is allocated, the old elements are
copied and the new ones written after them. -/
def append (a : Arena) (s : Seq) (es : List Int) : Arena × Seq :=
  if es.isEmpty then (a, s)
  else if s.len + es.length ≤ s.cap then
    (⟨a.stores.set s.store (spliceStore a s es)⟩,
      ⟨s.store, s.off, s.len + es.length, s.cap⟩)
  else
    (⟨a.stores ++
        [elems a s ++ es ++
          List.replicate (growCap s.cap (s.len + es.length) - (s.len + es.length)) 0]⟩,
      ⟨a.stores.length, 0, s.len + es.length, growCap s.cap (s.len + es.length)⟩)

/-- Modelled from the spec: copyOf allocates a fresh store sized to
`length` and copies all elements; never aliases. -/
def copyOf (a : Arena) (s : Seq) : Arena × Seq :=
  ((alloc a (elems a s)).1, ⟨(alloc a (elems a s)).2, 0, s.len, s.len⟩)

/-- The empty arena every concrete scenario starts from. -/
def emptyArena : Arena := ⟨[]⟩

/-- Scenario base: the array `[1,2,3,4,5]` of the slicing examples. -/
def base15 : Arena × Seq := fromElems emptyArena [1, 2, 3, 4, 5]

/-- Scenario: appending `1,2,3,4,5` one element at a time to an empty
sequence. -/
def incr5 : Arena × Seq :=
  let r0 := constructEmpty emptyArena
  let r1 := append r0.1 r0.2 [1]
  let r2 := append r1.1 r1.2 [2]
  let r3 := append r2.1 r2.2 [3]
  let r4 := append r3.1 r3.2 [4]
  append r4.1 r4.2 [5]

theorem getD_snoc_length (L : List (List Int)) (st : List Int) :
    (L ++ [st]).getD L.length [] = st := by
  rw [List.getD_eq_getElem?_getD]
  simp

theorem getD_snoc_lt (L : List (List Int)) (st : List Int) (i : Nat) (h : i < L.length) :
    (L ++ [st]).getD i [] = L.getD i [] := by
  rw [List.getD_eq_getElem?_getD, List.getD_eq_getElem?_getD, List.getElem?_append_left h]

theorem getD_set_self_of_lt (l : List Int) (q : Nat) (v d : Int) (h : q < l.length) :
    (l.set q v).getD q d = v := by
  rw [List.getD_eq_getElem?_getD]
  simp [List.getElem?_set_self, h]

theorem listSet_getD_ne (L : List (List Int)) (i j : Nat) (st : List Int) (h : i ≠ j) :
    (L.set i st).getD j [] = L.getD j [] := by
  rw [List.getD_eq_getElem?_getD, List.getD_eq_getElem?_getD, List.getElem?_set_ne h]

theorem listSet_getD_self (L : List (List Int)) (i : Nat) (st : List Int) (h : i < L.length) :
    (L.set i st).getD i [] = st := by
  rw [List.getD_eq_getElem?_getD]
  simp [List.getElem?_set_self, h]

theorem storeOf_snoc (a : Arena) (st : List Int) (z : Seq) (h : z.store < a.stores.length) :
    storeOf ⟨a.stores ++ [st]⟩ z = storeOf a z :=
  getD_snoc_lt a.stores st z.store h

theorem storeOf_set_other (x : Arena) (y z : Seq) (i v : Int) (hne : y.store ≠ z.store) :
    storeOf (set x y i v).1 z = storeOf x z := by
  unfold set
  split
  · rfl
  · exact listSet_getD_ne x.stores y.store z.store _ hne

theorem elems_length (a : Arena) (s : Seq) (hwf : WF a s) : (elems a s).length = s.len := by
  obtain ⟨-, h2, h3⟩ := hwf
  unfold elems
  simp
  omega

theorem take_len_append (A B C : List Int) :
    (A ++ B ++ C).take (A.length + B.length) = A ++ B := by
  rw [List.append_assoc, List.take_append_eq_append_take]
  have h1 : A.take (A.length + B.length) = A := List.take_of_length_le (by omega)
  have h2 : A.length + B.length - A.length = B.length := by omega
  rw [h1, h2, List.take_append_eq_append_take]
  simp

theorem splice_extract (st es : List Int) (off len : Nat) (h : off + len ≤ st.length) :
    ((st.take (off + len) ++ es ++ st.drop (off + len + es.length)).drop off).take
        (len + es.length) =
      (st.drop off).take len ++ es := by
  have hA : (st.take (off + len)).length = off + len := by simp [h]
  rw [List.append_assoc, List.drop_append_eq_append_drop, hA]
  have h0 : off - (off + len) = 0 := by omega
  rw [h0, List.drop_zero, List.drop_take]
  have h1 : off + len - off = len := by omega
  rw [h1, ← List.append_assoc]
  have hC : ((st.drop off).take len).length = len := by
    simp
    omega
  have := take_len_append ((st.drop off).take len) es (st.drop (off + len + es.length))
  rw [hC] at this
  exact this

theorem splice_length (st es : List Int) (p : Nat) (h : p + es.length ≤ st.length) :
    (st.take p ++ es ++ st.drop (p + es.length)).length = st.length := by
  simp
  omega

theorem splice_read_low (st es : List Int) (p k q : Nat) (hq : q < p) (hp : p ≤ st.length) :
    (st.take p ++ es ++ st.drop (p + k))[q]? = st[q]? := by
  rw [List.append_assoc, List.getElem?_append_left (by simp; omega)]
  rw [List.getElem?_take]
  simp [hq]

theorem splice_read_mid (st es : List Int) (p j : Nat) (hp : p ≤ st.length)
    (hj : j < es.length) :
    (st.take p ++ es ++ st.drop (p + es.length))[p + j]? = es[j]? := by
  rw [List.append_assoc, List.getElem?_append_right (by simp [hp])]
  have hA : (st.take p).length = p := by simp [hp]
  rw [hA]
  have h1 : p + j - p = j := by omega
  rw [h1, List.getElem?_append_left hj]

theorem elems_eq_of_storeOf_eq (x x' : Arena) (y : Seq) (h : storeOf x y = storeOf x' y) :
    elems x y = elems x' y := by
  unfold elems
  rw [h]

theorem storeOf_mk (L : List (List Int)) (y : Seq) : storeOf ⟨L⟩ y = L.getD y.store [] :=
  rfl

theorem elems_def (x : Arena) (y : Seq) :
    elems x y = ((storeOf x y).drop y.off).take y.len :=
  rfl

/-- Claim C1: append returns a sequence whose length is the old length
plus the number of appended elements, and whose contents are the original
elements in order followed by the new elements in order. -/
theorem append_length_and_contents (a : Arena) (s : Seq) (es : List Int) (hwf : WF a s) :
    (append a s es).2.len = s.len + es.length ∧
    elems (append a s es).1 (append a s es).2 = elems a s ++ es := by
  obtain ⟨h1, h2, h3⟩ := hwf
  by_cases he : es.isEmpty = true
  · have hnil : es = [] := by simpa using he
    subst hnil
    simp [append]
  · have hne : es.isEmpty = false := by simpa using he
    by_cases hc : s.len + es.length ≤ s.cap
    · refine ⟨by simp [append, hne, hc], ?_⟩
      simp only [append, hne, Bool.false_eq_true, if_false, hc, if_true]
      rw [elems_def, storeOf_mk]
      dsimp only
      rw [listSet_getD_self _ _ _ h1, elems_def]
      unfold spliceStore
      exact splice_extract (storeOf a s) es s.off s.len (by omega)
    · refine ⟨by simp [append, hne, hc], ?_⟩
      simp only [append, hne, Bool.false_eq_true, if_false, hc, if_true]
      rw [elems_def, storeOf_mk]
      dsimp only
      rw [getD_snoc_length, List.drop_zero]
      have hE : (elems a s).length = s.len := elems_length a s ⟨h1, h2, h3⟩
      have hT := take_len_append (elems a s) es
        (List.replicate (growCap s.cap (s.len + es.length) - (s.len + es.length)) 0)
      rw [hE] at hT
      exact hT

/-- Witness for C1 at a concrete append to `[1,2,3,4,5]`. -/
theorem append_length_and_contents_witness :
    (append base15.1 base15.2 [6, 7]).2.len = base15.2.len + 2 ∧
    elems (append base15.1 base15.2 [6, 7]).1 (append base15.1 base15.2 [6, 7]).2 =
      elems base15.1 base15.2 ++ [6, 7] :=
  append_length_and_contents base15.1 base15.2 [6, 7] (by decide)

/-- Claim C3: for bounds `0 ≤ start ≤ end ≤ length`, slice succeeds with a
view of length `end - start`, capacity `old capacity - start` (to the end
of the original backing store), whose element at index `i` is the element
of the original at `start + i`; and this composes for slices of slices as
in the `[1,2,3,4,5]` scenario. -/
theorem slice_view_correct (a : Arena) (s : Seq) (start stop : Int) (hwf : WF a s)
    (h0 : 0 ≤ start) (h1 : start ≤ stop) (h2 : stop ≤ (s.len : Int)) :
    (∃ t : Seq, slice a s start stop = Except.ok t ∧
      (t.len : Int) = stop - start ∧
      (t.cap : Int) = (s.cap : Int) - start ∧
      (∀ i : Nat, i < t.len → get a t (i : Int) = get a s (start + (i : Int)))) ∧
    slice base15.1 base15.2 1 4 = Except.ok ⟨0, 1, 3, 4⟩ ∧
    elems base15.1 ⟨0, 1, 3, 4⟩ = [2, 3, 4] ∧
    slice base15.1 ⟨0, 1, 3, 4⟩ 1 2 = Except.ok ⟨0, 2, 1, 3⟩ ∧
    elems base15.1 ⟨0, 2, 1, 3⟩ = [3] := by
  refine ⟨?_, by decide, by decide, by decide, by decide⟩
  obtain ⟨hw1, hw2, hw3⟩ := hwf
  have hcond : ¬(start < 0 ∨ stop < start ∨ (s.len : Int) < stop) := by omega
  refine ⟨⟨s.store, s.off + start.toNat, (stop - start).toNat, s.cap - start.toNat⟩, ?_, ?_, ?_, ?_⟩
  · unfold slice
    rw [if_neg hcond]
  · dsimp only
    omega
  · dsimp only
    omega
  · intro i hi
    dsimp only at hi ⊢
    unfold get
    have ht : ¬((i : Int) < 0 ∨ (((stop - start).toNat : Nat) : Int) ≤ (i : Int)) := by omega
    have hs : ¬(start + (i : Int) < 0 ∨ (s.len : Int) ≤ start + (i : Int)) := by omega
    rw [if_neg ht, if_neg hs]
    unfold storeOf
    dsimp only
    have hpos : s.off + start.toNat + (i : Int).toNat = s.off + (start + (i : Int)).toNat := by
      omega
    rw [hpos]

/-- Witness for C3 at the concrete slice `slice([1,2,3,4,5], 1, 4)`. -/
theorem slice_view_correct_witness :
    ∃ t : Seq, slice base15.1 base15.2 1 4 = Except.ok t ∧
      (t.len : Int) = 4 - 1 ∧
      (t.cap : Int) = (base15.2.cap : Int) - 1 ∧
      (∀ i : Nat, i < t.len → get base15.1 t (i : Int) = get base15.1 base15.2 (1 + (i : Int))) :=
  (slice_view_correct base15.1 base15.2 1 4 (by decide) (by decide) (by decide) (by decide)).1

/-- Claim C10: append never mutates the handle it was given — reading
through the old handle after the call returns exactly what it returned
before at every index, and indices at or beyond the old length still fail
with IndexOutOfRange (a handle's length and capacity are immutable fields
of its value, so they cannot change). -/
theorem append_frame (a : Arena) (s : Seq) (es : List Int) (hwf : WF a s) :
    (∀ i : Int, get (append a s es).1 s i = get a s i) ∧
    (∀ i : Int, (s.len : Int) ≤ i →
      get (append a s es).1 s i = Except.error Err.IndexOutOfRange) := by
  obtain ⟨h1, h2, h3⟩ := hwf
  have hread : ∀ q : Nat, q < s.off + s.len →
      (storeOf (append a s es).1 s).getD q 0 = (storeOf a s).getD q 0 := by
    intro q hq
    by_cases he : es.isEmpty = true
    · simp [append, he]
    · have hne : es.isEmpty = false := by simpa using he
      by_cases hc : s.len + es.length ≤ s.cap
      · simp only [append, hne, Bool.false_eq_true, if_false, hc, if_true]
        rw [storeOf_mk]
        rw [listSet_getD_self _ _ _ h1]
        unfold spliceStore
        rw [List.getD_eq_getElem?_getD, List.getD_eq_getElem?_getD]
        rw [splice_read_low (storeOf a s) es (s.off + s.len) es.length q hq (by omega)]
      · simp only [append, hne, Bool.false_eq_true, if_false, hc, if_true]
        rw [storeOf_snoc a _ s h1]
  have key : ∀ i : Int, get (append a s es).1 s i = get a s i := by
    intro i
    unfold get
    by_cases hcond : i < 0 ∨ (s.len : Int) ≤ i
    · rw [if_pos hcond, if_pos hcond]
    · rw [if_neg hcond, if_neg hcond]
      exact congrArg Except.ok (hread (s.off + i.toNat) (by omega))
  refine ⟨key, fun i hi => ?_⟩
  rw [key i]
  unfold get
  rw [if_pos (Or.inr hi)]

/-- Witness for C10 at a concrete append to `[1,2,3,4,5]`. -/
theorem append_frame_witness :
    get (append base15.1 base15.2 [6]).1 base15.2 0 = get base15.1 base15.2 0 ∧
    get (append base15.1 base15.2 [6]).1 base15.2 5 = Except.error Err.IndexOutOfRange :=
  ⟨(append_frame base15.1 base15.2 [6] (by decide)).1 0,
   (append_frame base15.1 base15.2 [6] (by decide)).2 5 (by decide)⟩

/-- Claim C2: whenever append must reallocate (old length + count of new
elements exceeds capacity), the new capacity follows the two-regime rule:
doubling (from 1 on the first growth from capacity 0) while the required
capacity is at most 1024, and growth by a factor 1.25 rounded up above
1024, never below the required capacity; in particular appending
`1,2,3,4,5` one element at a time to an empty sequence yields capacity 8. -/
theorem append_growth_rule (a : Arena) (s : Seq) (es : List Int)
    (hlc : s.len ≤ s.cap) (hneed : s.cap < s.len + es.length) :
    (append a s es).2.cap =
      (if s.len + es.length ≤ 1024 then
        max (s.len + es.length) (if s.cap = 0 then 1 else 2 * s.cap)
      else
        max (s.len + es.length) ((5 * s.cap + 3) / 4)) ∧
    incr5.2.len = 5 ∧ incr5.2.cap = 8 := by
  refine ⟨?_, by decide, by decide⟩
  have hne : es.isEmpty = false := by
    cases es with
    | nil => simp at hneed; omega
    | cons x xs => rfl
  have hnot : ¬(s.len + es.length ≤ s.cap) := by omega
  simp only [append, hne, Bool.false_eq_true, if_false, hnot, growCap]

/-- Witness for C2 at a concrete reallocating append. -/
theorem append_growth_rule_witness :
    (append base15.1 base15.2 [6]).2.cap =
      (if base15.2.len + 1 ≤ 1024 then
        max (base15.2.len + 1) (if base15.2.cap = 0 then 1 else 2 * base15.2.cap)
      else
        max (base15.2.len + 1) ((5 * base15.2.cap + 3) / 4)) :=
  (append_growth_rule base15.1 base15.2 [6] (by decide) (by decide)).1

/-- Claim C4: slice fails with RangeError exactly when `start < 0`,
`end < start` or `end > length`; for any other bounds it succeeds; in
particular `slice(arr, 2, 1)` on `[1,2,3,4,5]` fails with RangeError. -/
theorem slice_RangeError_iff :
    (∀ (a : Arena) (s : Seq) (start stop : Int),
      (slice a s start stop = Except.error Err.RangeError ↔
        (start < 0 ∨ stop < start ∨ (s.len : Int) < stop)) ∧
      ((slice a s start stop).isOk = true ↔
        ¬(start < 0 ∨ stop < start ∨ (s.len : Int) < stop))) ∧
    slice base15.1 base15.2 2 1 = Except.error Err.RangeError := by
  refine ⟨fun a s start stop => ⟨?_, ?_⟩, by decide⟩
  · unfold slice
    split
    · simp_all
    · simp_all
  · unfold slice
    split
    · simp_all [Except.isOk, Except.toBool]
    · simp_all [Except.isOk, Except.toBool]

/-- Claim C5: get and set fail with IndexOutOfRange exactly when the
index is negative or at least the length — even when the index is below
the capacity (with length 3 and capacity 5, indices 0–2 are settable and
3 and 4 fail) — and a failed set leaves the arena, hence every backing
store, unchanged (the bounds check precedes any write). -/
theorem get_set_IndexOutOfRange_iff :
    (∀ (a : Arena) (s : Seq) (i v : Int),
      (get a s i = Except.error Err.IndexOutOfRange ↔ (i < 0 ∨ (s.len : Int) ≤ i)) ∧
      ((set a s i v).2 = some Err.IndexOutOfRange ↔ (i < 0 ∨ (s.len : Int) ≤ i)) ∧
      ((i < 0 ∨ (s.len : Int) ≤ i) → (set a s i v).1 = a)) ∧
    ((set (makeSeq emptyArena 3 5).1 (makeSeq emptyArena 3 5).2 0 10).2 = none ∧
     (set (makeSeq emptyArena 3 5).1 (makeSeq emptyArena 3 5).2 1 20).2 = none ∧
     (set (makeSeq emptyArena 3 5).1 (makeSeq emptyArena 3 5).2 2 30).2 = none ∧
     (set (makeSeq emptyArena 3 5).1 (makeSeq emptyArena 3 5).2 3 40).2 =
       some Err.IndexOutOfRange ∧
     (set (makeSeq emptyArena 3 5).1 (makeSeq emptyArena 3 5).2 4 50).2 =
       some Err.IndexOutOfRange ∧
     get (makeSeq emptyArena 3 5).1 (makeSeq emptyArena 3 5).2 4 =
       Except.error Err.IndexOutOfRange) := by
  refine ⟨fun a s i v => ⟨?_, ?_, ?_⟩, by decide, by decide, by decide, by decide, by decide,
    by decide⟩
  · unfold get
    split
    · simp_all
    · simp_all
  · unfold set
    split
    · simp_all
    · simp_all
  · intro h
    unfold set
    simp [h]

/-- Witness for C5: a failed set at a negative index leaves the arena
unchanged. -/
theorem get_set_IndexOutOfRange_iff_witness :
    (set base15.1 base15.2 (-1) 0).1 = base15.1 :=
  (get_set_IndexOutOfRange_iff.1 base15.1 base15.2 (-1) 0).2.2 (by decide)

/-- Claim C6: every operation returns sequences satisfying the invariant
`0 ≤ length ≤ capacity` when its inputs do (lengths and capacities are
naturals, so `0 ≤ length` is inherent); in particular the result of
append always satisfies `capacity ≥ length`. -/
theorem ops_preserve_invariant :
    (∀ a : Arena, (constructEmpty a).2.len ≤ (constructEmpty a).2.cap) ∧
    (∀ (a : Arena) (es : List Int), (fromElems a es).2.len ≤ (fromElems a es).2.cap) ∧
    (∀ (a : Arena) (n c : Nat), n ≤ c → (makeSeq a n c).2.len ≤ (makeSeq a n c).2.cap) ∧
    (∀ (a : Arena) (s : Seq) (es : List Int), s.len ≤ s.cap →
      (append a s es).2.len ≤ (append a s es).2.cap) ∧
    (∀ (a : Arena) (s : Seq) (start stop : Int) (t : Seq), s.len ≤ s.cap →
      slice a s start stop = Except.ok t → t.len ≤ t.cap) ∧
    (∀ (a : Arena) (s : Seq), (copyOf a s).2.len ≤ (copyOf a s).2.cap) := by
  refine ⟨fun a => Nat.le_refl 0, fun a es => Nat.le_refl _, fun a n c h => h, ?_, ?_, ?_⟩
  · intro a s es h
    unfold append
    split
    · exact h
    · split
      · simpa using (by assumption : s.len + es.length ≤ s.cap)
      · simp only [growCap]
        split
        · exact Nat.le_max_left _ _
        · exact Nat.le_max_left _ _
  · intro a s start stop t h hok
    unfold slice at hok
    split at hok
    · exact absurd hok (by simp)
    · rename_i hcond
      push_neg at hcond
      obtain ⟨h0, h1, h2⟩ := hcond
      injection hok with hok
      subst hok
      simp only
      omega
  · intro a s
    exact Nat.le_refl _

/-- Witness for C6 at a concrete append and a concrete slice. -/
theorem ops_preserve_invariant_witness :
    (append base15.1 base15.2 [6]).2.len ≤ (append base15.1 base15.2 [6]).2.cap ∧
    Seq.len ⟨0, 1, 3, 4⟩ ≤ Seq.cap ⟨0, 1, 3, 4⟩ :=
  ⟨ops_preserve_invariant.2.2.2.1 base15.1 base15.2 [6] (by decide),
   ops_preserve_invariant.2.2.2.2.1 base15.1 base15.2 1 4 ⟨0, 1, 3, 4⟩ (by decide) (by decide)⟩

/-- Claim C9: the make-equivalent with length only zero-initializes: for
every `n`, the constructed sequence has length `n`, capacity `n`, and get
at every index `0 ≤ i < n` returns the zero value. -/
theorem makeLen_zero_initialized (a : Arena) (n : Nat) (i : Int)
    (h0 : 0 ≤ i) (hn : i < (n : Int)) :
    (makeLen a n).2.len = n ∧ (makeLen a n).2.cap = n ∧
    get (makeLen a n).1 (makeLen a n).2 i = Except.ok 0 := by
  refine ⟨rfl, rfl, ?_⟩
  unfold get makeLen makeSeq alloc storeOf
  have hcond : ¬(i < 0 ∨ ((⟨a.stores.length, 0, n, n⟩ : Seq).len : Int) ≤ i) := by
    simp only
    omega
  simp only
  rw [if_neg (by simpa using hcond)]
  rw [getD_snoc_length, List.getD_eq_getElem?_getD, List.getElem?_replicate]
  have : i.toNat < n := by omega
  simp [this]

/-- Witness for C9 at `n = 3`, `i = 1`. -/
theorem makeLen_zero_initialized_witness :
    (makeLen emptyArena 3).2.len = 3 ∧ (makeLen emptyArena 3).2.cap = 3 ∧
    get (makeLen emptyArena 3).1 (makeLen emptyArena 3).2 1 = Except.ok 0 :=
  makeLen_zero_initialized emptyArena 3 1 (by decide) (by decide)

theorem spliceStore_length (a : Arena) (s : Seq) (es : List Int)
    (h : s.off + s.len + es.length ≤ (storeOf a s).length) :
    (spliceStore a s es).length = (storeOf a s).length := by
  unfold spliceStore
  exact splice_length (storeOf a s) es (s.off + s.len) h

theorem set_get_roundtrip (x : Arena) (y t : Seq) (i j : Nat) (v : Int)
    (hys : y.store < x.stores.length)
    (hts : t.store = y.store) (hoff : t.off + j = y.off + i)
    (hi : i < y.len) (hj : j < t.len)
    (hpos : y.off + i < (storeOf x y).length) :
    get (set x y (i : Int) v).1 t (j : Int) = Except.ok v := by
  unfold set
  rw [if_neg (by omega : ¬(((i : Nat) : Int) < 0 ∨ (y.len : Int) ≤ ((i : Nat) : Int)))]
  unfold get
  rw [if_neg (by omega : ¬(((j : Nat) : Int) < 0 ∨ (t.len : Int) ≤ ((j : Nat) : Int)))]
  rw [storeOf_mk, hts, listSet_getD_self _ _ _ hys]
  have hp1 : t.off + ((j : Nat) : Int).toNat = y.off + i := by omega
  have hp2 : y.off + ((i : Nat) : Int).toNat = y.off + i := by omega
  rw [hp1, hp2]
  exact congrArg Except.ok (getD_set_self_of_lt _ _ _ _ hpos)

/-- Claim C8: copyOf returns a sequence with the same elements, backed by
a freshly allocated store sized to the length that never aliases the
original: a set through the copy leaves the elements reachable through
the original unchanged and a set through the original leaves the copy's
elements unchanged (a handle's length and capacity are immutable fields
of its value, so they cannot change under any set). -/
theorem copyOf_no_alias (a : Arena) (s : Seq) (hwf : WF a s) :
    (copyOf a s).2.len = s.len ∧ (copyOf a s).2.cap = s.len ∧
    (storeOf (copyOf a s).1 (copyOf a s).2).length = s.len ∧
    (copyOf a s).2.store ≠ s.store ∧
    elems (copyOf a s).1 (copyOf a s).2 = elems a s ∧
    (∀ i v : Int, elems (set (copyOf a s).1 (copyOf a s).2 i v).1 s = elems a s) ∧
    (∀ i v : Int, elems (set (copyOf a s).1 s i v).1 (copyOf a s).2 = elems a s) := by
  obtain ⟨h1, h2, h3⟩ := hwf
  have hlen : (elems a s).length = s.len := elems_length a s ⟨h1, h2, h3⟩
  have hsf : storeOf (copyOf a s).1 (copyOf a s).2 = elems a s := by
    show (a.stores ++ [elems a s]).getD a.stores.length [] = elems a s
    exact getD_snoc_length _ _
  have hstore : (copyOf a s).2.store ≠ s.store := by
    show a.stores.length ≠ s.store
    omega
  have hel : elems (copyOf a s).1 (copyOf a s).2 = elems a s := by
    rw [elems_def, hsf]
    show ((elems a s).drop 0).take s.len = elems a s
    rw [List.drop_zero]
    exact List.take_of_length_le (by omega)
  refine ⟨rfl, rfl, by rw [hsf]; exact hlen, hstore, hel, ?_, ?_⟩
  · intro i v
    have e1 : storeOf (set (copyOf a s).1 (copyOf a s).2 i v).1 s =
        storeOf (copyOf a s).1 s :=
      storeOf_set_other _ _ _ i v hstore
    have e2 : storeOf (copyOf a s).1 s = storeOf a s := by
      show storeOf ⟨a.stores ++ [elems a s]⟩ s = storeOf a s
      exact storeOf_snoc a _ s h1
    rw [elems_def, e1, e2, ← elems_def]
  · intro i v
    have e1 : storeOf (set (copyOf a s).1 s i v).1 (copyOf a s).2 =
        storeOf (copyOf a s).1 (copyOf a s).2 :=
      storeOf_set_other _ _ _ i v (fun h => hstore h.symm)
    rw [elems_def, e1, ← elems_def]
    exact hel

/-- Witness for C8 on `[1,2,3,4,5]`: the copy has the same elements and
a set through the copy does not change the original's elements. -/
theorem copyOf_no_alias_witness :
    elems (copyOf base15.1 base15.2).1 (copyOf base15.1 base15.2).2 =
      elems base15.1 base15.2 ∧
    elems (set (copyOf base15.1 base15.2).1 (copyOf base15.1 base15.2).2 0 99).1 base15.2 =
      elems base15.1 base15.2 :=
  ⟨(copyOf_no_alias base15.1 base15.2 (by decide)).2.2.2.2.1,
   (copyOf_no_alias base15.1 base15.2 (by decide)).2.2.2.2.2.1 0 99⟩

/-- Claim C7: when append fits within capacity it aliases the original
backing store: the returned handle has the same store and offset, the new
elements sit in the store at offsets `length, length+1, …`, and a write
through the returned handle at a store position shared with any view over
the same store is observed when reading through that view. -/
theorem append_within_capacity_aliases (a : Arena) (s : Seq) (es : List Int)
    (hwf : WF a s) (hcap : s.len + es.length ≤ s.cap) :
    (append a s es).2.store = s.store ∧
    (append a s es).2.off = s.off ∧
    (append a s es).2.len = s.len + es.length ∧
    (∀ j : Nat, j < es.length →
      get (append a s es).1 (append a s es).2 ((s.len : Int) + (j : Int)) =
        Except.ok (es.getD j 0)) ∧
    (∀ (t : Seq) (i j : Nat) (v : Int), t.store = s.store → t.off + j = s.off + i →
      j < t.len → i < s.len + es.length →
      get (set (append a s es).1 (append a s es).2 (i : Int) v).1 t (j : Int) =
        Except.ok v) := by
  obtain ⟨h1, h2, h3⟩ := hwf
  by_cases he : es.isEmpty = true
  · have hnil : es = [] := by simpa using he
    subst hnil
    have hsel : append a s [] = (a, s) := rfl
    rw [hsel]
    refine ⟨rfl, rfl, rfl, fun j hj => absurd hj (Nat.not_lt_zero j), ?_⟩
    intro t i j v hts hoff hj hi
    simp only [List.length_nil, Nat.add_zero] at hi
    exact set_get_roundtrip a s t i j v h1 hts hoff hi hj (by omega)
  · have hne : es.isEmpty = false := by simpa using he
    have hsel : append a s es =
        (⟨a.stores.set s.store (spliceStore a s es)⟩,
          ⟨s.store, s.off, s.len + es.length, s.cap⟩) := by
      simp only [append, hne, Bool.false_eq_true, if_false, hcap, if_true]
    rw [hsel]
    have hsp : storeOf (⟨a.stores.set s.store (spliceStore a s es)⟩ : Arena)
        (⟨s.store, s.off, s.len + es.length, s.cap⟩ : Seq) = spliceStore a s es := by
      rw [storeOf_mk]
      exact listSet_getD_self _ _ _ h1
    have hsplen : (spliceStore a s es).length = (storeOf a s).length :=
      spliceStore_length a s es (by omega)
    refine ⟨rfl, rfl, rfl, ?_, ?_⟩
    · intro j hj
      unfold get
      rw [if_neg (by
        show ¬((s.len : Int) + (j : Nat) < 0 ∨
          (((⟨s.store, s.off, s.len + es.length, s.cap⟩ : Seq).len : Int) ≤
            (s.len : Int) + (j : Nat)))
        dsimp only
        omega)]
      rw [hsp]
      have hp : (⟨s.store, s.off, s.len + es.length, s.cap⟩ : Seq).off +
          ((s.len : Int) + (j : Nat)).toNat = s.off + s.len + j := by
        dsimp only
        omega
      rw [hp]
      unfold spliceStore
      rw [List.getD_eq_getElem?_getD]
      rw [splice_read_mid (storeOf a s) es (s.off + s.len) j (by omega) hj]
      rw [← List.getD_eq_getElem?_getD]
    · intro t i j v hts hoff hj hi
      exact set_get_roundtrip ⟨a.stores.set s.store (spliceStore a s es)⟩
        ⟨s.store, s.off, s.len + es.length, s.cap⟩ t i j v (by simpa using h1) hts hoff hi hj
        (by rw [hsp, hsplen]; dsimp only; omega)

/-- Witness for C7: appending within capacity to the make(3,5) sequence. -/
theorem append_within_capacity_aliases_witness :
    (append (makeSeq emptyArena 3 5).1 (makeSeq emptyArena 3 5).2 [4]).2.store =
      (makeSeq emptyArena 3 5).2.store ∧
    get (append (makeSeq emptyArena 3 5).1 (makeSeq emptyArena 3 5).2 [4]).1
      (append (makeSeq emptyArena 3 5).1 (makeSeq emptyArena 3 5).2 [4]).2
      (((makeSeq emptyArena 3 5).2.len : Int) + ((0 : Nat) : Int)) =
      Except.ok ([4].getD 0 0) :=
  ⟨(append_within_capacity_aliases (makeSeq emptyArena 3 5).1 (makeSeq emptyArena 3 5).2 [4]
      (by decide) (by decide)).1,
   (append_within_capacity_aliases (makeSeq emptyArena 3 5).1 (makeSeq emptyArena 3 5).2 [4]
      (by decide) (by decide)).2.2.2.1 0 (by decide)⟩

end GrowSeq
